import Mathlib

/-!
Verification development for the XBoard/UCI protocol adapter `ptc_xboard.py`.

The adapter is a line dispatcher over a single mutable chess board.  The
board-rules library (python-chess) and the engine modules are external
collaborators; they are modelled as explicit parameters (`ChessLib`,
`Engine`).  Machine-level Python behaviours that the dispatcher relies on
(IndexError on out-of-range indexing, ValueError from `int`, exceptions
from `push_uci`) are modelled by the `PyRes` result monad: `PyRes.exc`
means an uncaught Python exception, i.e. a process crash.

Side effects are modelled as an explicit effect trace: `Effect.out` is a
line printed to stdout, `Effect.logW` a write to the raw-protocol log
file (only produced when the log-enable environment flag is set),
`Effect.pgnWrite` an (attempted) overwrite of the PGN game file, and
`Effect.engineCall` a synchronous call of the engine facade `p.getmove`
made directly by the dispatcher thread.
-/

/-- Python exception kinds that the adapter can raise. -/
inductive PyErr where
  | indexError
  | valueError
  | illegalMove
  | attributeError
deriving DecidableEq, Repr

/-- Result of running a piece of Python code: a value, or an uncaught
exception (which crashes the process). -/
inductive PyRes (α : Type) where
  | ok (a : α)
  | exc (e : PyErr)
deriving DecidableEq, Repr

instance : Monad PyRes where
  pure := PyRes.ok
  bind := fun r f => match r with | .ok a => f a | .exc e => .exc e

/-- Python list indexing `xs[i]`: raises IndexError when out of range. -/
def pyIndex (xs : List α) (i : Nat) : PyRes α :=
  match xs.get? i with
  | some a => PyRes.ok a
  | none => PyRes.exc .indexError

/-- Python string indexing `l[i]` on the character list of the string. -/
def pyCharAt (cs : List Char) (i : Nat) : PyRes Char :=
  match cs.get? i with
  | some c => PyRes.ok c
  | none => PyRes.exc .indexError

/-- Decimal digit accumulator used by `pyIntOpt`. -/
def digitsToNat : List Char → Option Nat → Option Nat
  | [], acc => acc
  | c :: cs, acc =>
      if c.isDigit then digitsToNat cs (some ((acc.getD 0) * 10 + (c.toNat - 48)))
      else none

/-- Python `int(tok)` on a protocol token: optional sign followed by
decimal digits; `none` models the ValueError case. -/
def pyIntOpt (s : String) : Option Int :=
  match s.toList with
  | '-' :: cs => (digitsToNat cs none).map (fun n => -(n : Int))
  | '+' :: cs => (digitsToNat cs none).map (fun n => (n : Int))
  | cs => (digitsToNat cs none).map (fun n => (n : Int))

/-- Python `int(tok)` raising ValueError on a malformed token. -/
def pyInt (s : String) : PyRes Int :=
  match pyIntOpt s with
  | some n => PyRes.ok n
  | none => PyRes.exc .valueError

/-- Helper for `pySplit`: whitespace split with an accumulator for the
current word (reversed). -/
def splitWsAux : List Char → List Char → List String
  | [], acc => if acc.isEmpty then [] else [String.mk acc.reverse]
  | c :: cs, acc =>
      if c = ' ' then
        if acc.isEmpty then splitWsAux cs []
        else String.mk acc.reverse :: splitWsAux cs []
      else splitWsAux cs (c :: acc)

/-- Python `l.split()`: split on runs of spaces, dropping empty words. -/
def pySplit (s : String) : List String :=
  splitWsAux s.toList []

/-- Python `l.split(' ', 1)`: split at the first space only; the remainder
is kept verbatim. -/
def pySplitOnce (l : String) : List String :=
  let cs := l.toList
  let pre := cs.takeWhile (· ≠ ' ')
  if pre.length = cs.length then [l]
  else [String.mk pre, String.mk (cs.drop (pre.length + 1))]

/-- Python `' '.join(xs)`. -/
def joinSp : List String → String
  | [] => ""
  | [x] => x
  | x :: xs => x ++ " " ++ joinSp xs

/-- Python `', '.join(xs)`, used for the repr of a move list. -/
def joinComma : List String → String
  | [] => ""
  | [x] => x
  | x :: xs => x ++ ", " ++ joinComma xs

/-- A single-quote character, written via its code point. -/
def sqCh : String := String.singleton (Char.ofNat 39)

/-- Python `"%s" % r` where `r` is a list of move strings (its repr). -/
def pyListRepr (r : List String) : String :=
  "[" ++ joinComma (r.map (fun m => sqCh ++ m ++ sqCh)) ++ "]"

/-- Python substring containment `pat in s`. -/
def strHasSub (s pat : String) : Bool :=
  (List.range (s.toList.length + 1)).any (fun i => pat.toList.isPrefixOf (s.toList.drop i))

/-!  ## The external chess-rules library and the board

python-chess is out of scope for the source; it is modelled by an
abstract `ChessLib`: a start position, a FEN validator/parser, and a
move application function on printed positions.  `applyMove pos m = none`
models `push_uci` raising on an illegal or unparsable move, and
`parseFEN f = none` models `Board(f)` raising on a malformed FEN.

A `Board` value records the current position (as the FEN string the
library would print for it) together with the move stack; `Board.copy()`
in python-chess copies the move stack, so copying is value identity
here. -/

structure ChessLib where
  startFEN : String
  parseFEN : String → Option String
  applyMove : String → String → Option String

/-- The adapter's board object: printed position plus move history. -/
structure Board where
  pos : String
  stack : List String
deriving DecidableEq, Repr

/-- The engine facade: `p.getmove(board, silent=True)` returning a pair
of telemetry and a (possibly empty) result sequence whose first element
is the chosen move. -/
abbrev Engine := Board → String × List String

/-- A fresh `c.Board()` at the start position (`newgame`). -/
def startBoard (lib : ChessLib) : Board :=
  { pos := lib.startFEN, stack := [] }

/-- `d.push_uci(m)`: apply a move, extending the move stack; raises on an
illegal move. -/
def pushUci (lib : ChessLib) (b : Board) (m : String) : PyRes Board :=
  match lib.applyMove b.pos m with
  | some p2 => PyRes.ok { pos := p2, stack := b.stack ++ [m] }
  | none => PyRes.exc .illegalMove

/-- Push a whole move list in order (`for mo in mm: d.push_uci(mo)`). -/
def pushAll (lib : ChessLib) : Board → List String → PyRes Board
  | b, [] => PyRes.ok b
  | b, m :: ms => do
      let b2 ← pushUci lib b m
      pushAll lib b2 ms

/-!  ## Process configuration, state and effects -/

/-- Values stored on engine-facade attributes by option setters. -/
inductive PyVal where
  | i (n : Int)
  | f (num den : Int)
  | s (v : String)
  | b (v : Bool)
deriving DecidableEq, Repr

/-- Startup configuration: engine display name (chosen from `sys.argv` at
process start) and whether the raw-protocol log is enabled. -/
structure Config where
  nm : String
  logEnabled : Bool
deriving DecidableEq, Repr

/-- The background search task handle: `threading.Thread(target=_think_loop,
args=(depth,))`.  Only the spawn parameter is recorded; the task body is
modelled by `thinkLoopRun`. -/
structure SearchTask where
  depthTarget : Option Int
deriving DecidableEq, Repr

/-- The adapter's module-level mutable state. -/
structure EngState where
  d : Option Board
  isUci : Bool
  searchThread : Option SearchTask
  stopFlag : Bool
  lastResult : Option (String × List String)
  attrs : List (String × PyVal)
deriving DecidableEq, Repr

/-- State at module load: `d = ''`, `is_uci = True`, no thread, stop flag
clear, no last result. -/
def initState : EngState :=
  { d := none, isUci := true, searchThread := none, stopFlag := false,
    lastResult := none, attrs := [] }

/-- Observable side effects of processing input. -/
inductive Effect where
  | out (line : String)
  | logW (s : String)
  | pgnWrite
  | engineCall
deriving DecidableEq, Repr

/-- `print2(x)`: print to stdout and echo to the log file when enabled. -/
def print2Effs (cfg : Config) (x : String) : List Effect :=
  Effect.out x :: (if cfg.logEnabled then [Effect.logW ("< " ++ x)] else [])

/-- `print2` applied to each line of a block in order. -/
def print2Seq (cfg : Config) : List String → List Effect
  | [] => []
  | x :: xs => print2Effs cfg x ++ print2Seq cfg xs

/-- Project the stdout lines out of an effect trace. -/
def outsOf (effs : List Effect) : List String :=
  effs.filterMap (fun e => match e with | .out s => some s | _ => none)

/-- Overwrite an engine-facade attribute (`setattr`-style update). -/
def setAttrS (s : EngState) (k : String) (v : PyVal) : EngState :=
  { s with attrs := (k, v) :: s.attrs.filter (fun kv => kv.fst ≠ k) }

/-- Python `%u`/`%s` formatting of a stored option value: floats truncate
toward zero under `%u`; booleans print as `True`/`False`. -/
def pyFmt (v : PyVal) : String :=
  match v with
  | .i n => toString n
  | .f num den => toString (num.tdiv den)
  | .s t => t
  | .b b => if b then "True" else "False"

/-!  ## Helper routines of the adapter (source lines 93-225) -/

/-- `newgame()`: replace the board with a fresh start-position board.
The `p.Chess960` variant only changes the external board constructor
flag, which the board model does not distinguish. -/
def newgameSt (lib : ChessLib) (s : EngState) : EngState :=
  { s with d := some (startBoard lib) }

/-- `fromfen(fen)`: try to replace the board by a freshly parsed one; on
a malformed FEN the exception is caught, `Bad FEN` is printed and the
board is left unchanged. -/
def fromfenStep (cfg : Config) (lib : ChessLib) (s : EngState) (fen : String) :
    EngState × List Effect :=
  match lib.parseFEN fen with
  | some p2 => ({ s with d := some { pos := p2, stack := [] } }, [])
  | none => (s, print2Effs cfg "Bad FEN")

/-- `move(r)`: push `r[0]` onto the board, print the bestmove/move line,
then rewrite the PGN file.  Raises IndexError on an empty sequence,
AttributeError when no board exists, and the push exception on an
illegal move. -/
def moveStep (cfg : Config) (lib : ChessLib) (s : EngState) (r : List String) :
    PyRes (EngState × List Effect) := do
  let rm ← pyIndex r 0
  match s.d with
  | none => PyRes.exc .attributeError
  | some b => do
      let b2 ← pushUci lib b rm
      PyRes.ok ({ s with d := some b2 },
        print2Effs cfg ((if s.isUci then "bestmove " else "move ") ++ rm) ++ [Effect.pgnWrite])

/-- The null-move sentinel line in the current protocol mode. -/
def sentinelLine (isU : Bool) : String :=
  if isU then "bestmove 0000" else "move 0000"

/-- `stop_search_and_output()`: set the stop flag, join and drop the
thread handle, then either play and emit `last_result` via `move()` or
emit the null-move sentinel.  `last_result` itself is not cleared. -/
def stopSearchAndOutput (cfg : Config) (lib : ChessLib) (s : EngState) :
    PyRes (EngState × List Effect) :=
  let s1 := { s with stopFlag := true, searchThread := none }
  match s1.lastResult with
  | some (_, r) =>
      if r = [] then PyRes.ok (s1, print2Effs cfg (sentinelLine s1.isUci))
      else moveStep cfg lib s1 r
  | none => PyRes.ok (s1, print2Effs cfg (sentinelLine s1.isUci))

/-- Time-control tokens recognised by `set_newt_time`. -/
def newtTimeKeys : List String := ["wtime", "btime", "movestogo", "movetime", "nodes"]

/-- Facade attribute written for each time-control token. -/
def newtAttrOf (t : String) : String := if t = "nodes" then "MAXNODES" else t

/-- `set_newt_time(line)`: scan the token list; after each key token,
`int` of the following token is stored (IndexError when the key is last,
ValueError on a malformed number). -/
def setNewtTime (s : EngState) : List String → PyRes EngState
  | [] => PyRes.ok s
  | [t] => if newtTimeKeys.contains t then PyRes.exc .indexError else PyRes.ok s
  | t :: nxt :: rest =>
      if newtTimeKeys.contains t then do
        let v ← pyInt nxt
        setNewtTime (setAttrS s (newtAttrOf t) (.i v)) (nxt :: rest)
      else setNewtTime s (nxt :: rest)

/-- Depth parsing in `start_search`: the token after the first `depth`
token, with any parse failure collapsed to `None`. -/
def goDepthOf (toks : List String) : Option Int :=
  match toks.findIdx? (fun t => t = "depth") with
  | some i =>
      match toks.get? (i + 1) with
      | some nx => pyIntOpt nx
      | none => none
  | none => none

/-- `start_search(go_line)`: clear the stop flag and `last_result`, then
spawn the background iterative-deepening task with the parsed depth. -/
def startSearchSt (s : EngState) (l : String) : EngState :=
  { s with stopFlag := false, lastResult := none,
           searchThread := some { depthTarget := goDepthOf (pySplit l) } }

/-!  ## The background search task (`_think_loop`, source lines 106-129)

The task body only reads the board (through `p.getmove`, abstracted as a
per-depth result function `g`) and only writes `last_result`; it prints
nothing.  The cooperatively polled stop flag is modelled by a schedule
`stopObs` giving the value seen by the k-th read of the flag. -/

/-- Depth iterations `range(1, max_d + 1)`. -/
def iterDepths (maxD : Int) : List Nat :=
  (List.range maxD.toNat).map (· + 1)

/-- One pass of the iterative-deepening loop: flag check, one blocking
`p.getmove` at the current depth, conditional `last_result` update, flag
check again.  Returns the final `last_result` and the lines the loop
itself printed. -/
def thinkLoopAux (g : Nat → String × List String) (stopObs : Nat → Bool) :
    List Nat → Nat → Option (String × List String) →
    Option (String × List String) × List String
  | [], _, lr => (lr, [])
  | dd :: rest, k, lr =>
      if stopObs k then (lr, [])
      else
        let tr := g dd
        let lr2 := if tr.2 = [] then lr else some tr
        if stopObs (k + 1) then (lr2, [])
        else thinkLoopAux g stopObs rest (k + 2) lr2

/-- `_think_loop(depth_target)`: iterate depths 1 up to the target (64
when none), starting from an empty `last_result`. -/
def thinkLoopRun (g : Nat → String × List String) (stopObs : Nat → Bool)
    (target : Option Int) : Option (String × List String) × List String :=
  thinkLoopAux g stopObs (iterDepths (target.getD 64)) 0 none

/-- The deepest non-empty result over the completed iterations: what
`last_result` holds after a full uncancelled loop. -/
def lastIterResult (g : Nat → String × List String) (maxD : Int) :
    Option (String × List String) :=
  (iterDepths maxD).foldl (fun lr dd => let tr := g dd; if tr.2 = [] then lr else some tr) none

/-!  ## Dispatch (the main loop, source lines 227-472) -/

/-- The branch of the dispatch chain a line falls into.  The chain tests
patterns in source order: exact matches, then substring containment,
first match wins. -/
inductive Branch where
  | bXboard
  | bQuit
  | bNew
  | bUci
  | bUcinewgame
  | bPosStartpos
  | bPosFen
  | bSetopt (name : String)
  | bIsready
  | bSetboard
  | bGo
  | bStop
  | bForce
  | bQuestion
  | bFallback
deriving DecidableEq, Repr

/-- Classify an input line against the dispatch chain, in source order. -/
def classify (l : String) : Branch :=
  if l = "xboard" then .bXboard
  else if l = "quit" then .bQuit
  else if l = "new" then .bNew
  else if l = "uci" then .bUci
  else if l = "ucinewgame" then .bUcinewgame
  else if strHasSub l "position startpos moves" then .bPosStartpos
  else if strHasSub l "position fen" then .bPosFen
  else if strHasSub l "setoption name maxplies value" then .bSetopt "maxplies"
  else if strHasSub l "setoption name depth value" then .bSetopt "depth"
  else if strHasSub l "setoption name qplies value" then .bSetopt "qplies"
  else if strHasSub l "setoption name nummov value" then .bSetopt "nummov"
  else if strHasSub l "setoption name mtime value" then .bSetopt "mtime"
  else if strHasSub l "setoption name ev value" then .bSetopt "ev"
  else if strHasSub l "setoption name alim value" then .bSetopt "alim"
  else if strHasSub l "setoption name lambda value" then .bSetopt "lambda"
  else if strHasSub l "setoption name enginepath value" then .bSetopt "enginepath"
  else if strHasSub l "setoption name bookpath value" then .bSetopt "bookpath"
  else if strHasSub l "setoption name trueval value" then .bSetopt "trueval"
  else if strHasSub l "setoption name waitbook value" then .bSetopt "waitbook"
  else if strHasSub l "setoption name pstab value" then .bSetopt "pstab"
  else if strHasSub l "setoption name maxnodes value" then .bSetopt "maxnodes"
  else if strHasSub l "setoption name matetest value" then .bSetopt "matetest"
  else if strHasSub l "setoption name pawnrule value" then .bSetopt "pawnrule"
  else if strHasSub l "setoption name usebook value" then .bSetopt "usebook"
  else if strHasSub l "setoption name pmtlen value" then .bSetopt "pmtlen"
  else if strHasSub l "setoption name pmtstart value" then .bSetopt "pmtstart"
  else if strHasSub l "setoption name MoveError value" then .bSetopt "MoveError"
  else if strHasSub l "setoption name BlunderError value" then .bSetopt "BlunderError"
  else if strHasSub l "setoption name BlunderPercent value" then .bSetopt "BlunderPercent"
  else if strHasSub l "setoption name EasyLearn value" then .bSetopt "EasyLearn"
  else if strHasSub l "setoption name EasyLambda value" then .bSetopt "EasyLambda"
  else if strHasSub l "setoption name PlayerAdvantage value" then .bSetopt "PlayerAdvantage"
  else if strHasSub l "setoption name UCI_Chess960 value" then .bSetopt "UCI_Chess960"
  else if l = "isready" then .bIsready
  else if strHasSub l "setboard" then .bSetboard
  else if l.toList.take 2 = ['g', 'o'] then .bGo
  else if l = "stop" then .bStop
  else if l = "force" then .bForce
  else if l = "?" then .bQuestion
  else .bFallback

/-- The `uci` handshake output block for a given engine name, source
lines 250-305. -/
def uciOutput (nm : String) : List String :=
  ["id name " ++ nm, "id author Martin C. Doege"]
  ++ (if strHasSub nm "PyTuroChamp" then
        ["option name maxplies type spin default 1 min 0 max 1024",
         "option name qplies type spin default 7 min 0 max 1024",
         "option name pstab type spin default 0 min 0 max 1024",
         "option name matetest type check default true",
         "option name MoveError type spin default 0 min 0 max 1024",
         "option name BlunderError type spin default 0 min 0 max 1024",
         "option name BlunderPercent type spin default 0 min 0 max 1024",
         "option name EasyLearn type spin default 0 min 0 max 1024",
         "option name EasyLambda type spin default 20 min 1 max 1024",
         "option name PlayerAdvantage type spin default 0 min -1024 max 1024"]
      else [])
  ++ (if nm = "Bare" then
        ["option name maxplies type spin default 3 min 0 max 1024",
         "option name pstab type spin default 5 min 0 max 1024",
         "option name matetest type check default true"]
      else [])
  ++ (if nm = "Shannon" then
        ["option name maxplies type spin default 1 min 0 max 1024",
         "option name qplies type spin default 7 min 0 max 1024",
         "option name matetest type check default true",
         "option name pawnrule type check default false"]
      else [])
  ++ (if nm = "Plan" then ["option name maxplies type spin default 3 min 0 max 1024"] else [])
  ++ (if nm = "Newt" then
        ["option name depth type spin default 4 min 0 max 1024",
         "option name qplies type spin default 6 min 0 max 1024",
         "option name pstab type spin default 1 min 0 max 1024",
         "option name maxnodes type spin default 1000000 min 0 max 1000000000",
         "option name usebook type check default true",
         "option name matetest type check default true"]
      else [])
  ++ (if nm = "SOMA" then ["option name matetest type check default true"] else [])
  ++ (if nm = "Bernstein" then
        ["option name maxplies type spin default 3 min 0 max 1024",
         "option name pmtlen type spin default 7 min 1 max 1024",
         "option name pmtstart type spin default 0 min 0 max 1024",
         "option name matetest type check default true"]
      else [])
  ++ (if nm = "Simple Adaptive Engine" then
        ["option name nummov type spin default 20 min 1 max 1024",
         "option name mtime type spin default 3 min 1 max 1024",
         "option name ev type spin default 100 min -1024 max 1024",
         "option name alim type spin default 200 min 0 max 1024",
         "option name lambda type spin default 10 min 1 max 1024",
         "option name enginepath type string default stockfish",
         "option name trueval type check default true",
         "option name usebook type check default true",
         "option name bookpath type string default Elo2400.bin",
         "option name waitbook type check default true"]
      else [])
  ++ (if nm ≠ "Simple Adaptive Engine" then
        ["option name UCI_Chess960 type check default false"]
      else [])
  ++ ["uciok"]

/-- Integer-valued options and the facade attribute each one writes. -/
def intOptAttr (name : String) : String :=
  if name = "maxplies" then "MAXPLIES"
  else if name = "depth" then "DEPTH"
  else if name = "qplies" then "QPLIES"
  else if name = "nummov" then "NUMMOV"
  else if name = "mtime" then "MTIME"
  else if name = "maxnodes" then "MAXNODES"
  else if name = "pmtlen" then "PMTLEN"
  else if name = "pmtstart" then "PMTSTART"
  else name

/-- Boolean-valued options and the facade attribute each one writes. -/
def boolOptAttr (name : String) : String :=
  if name = "trueval" then "TRUEVAL"
  else if name = "waitbook" then "WAITBOOK"
  else if name = "matetest" then "MATETEST"
  else if name = "pawnrule" then "PAWNRULE"
  else if name = "usebook" then "USEBOOK"
  else "Chess960"

def intOptNames : List String :=
  ["maxplies", "depth", "qplies", "nummov", "mtime", "maxnodes", "pmtlen", "pmtstart",
   "MoveError", "BlunderError", "BlunderPercent", "EasyLearn", "PlayerAdvantage"]

def boolOptNames : List String :=
  ["trueval", "waitbook", "matetest", "pawnrule", "usebook", "UCI_Chess960"]

/-- The `setoption name <NAME> value <VALUE>` bodies, source lines
335-435: read `l.split()[4]`, coerce, store on the facade, acknowledge
with a `#` comment line. -/
def setoptHandler (cfg : Config) (s : EngState) (name l : String) :
    PyRes (EngState × List Effect) := do
  let vtok ← pyIndex (pySplit l) 4
  if intOptNames.contains name then do
    let n ← pyInt vtok
    let v := PyVal.i n
    PyRes.ok (setAttrS s (intOptAttr name) v,
      print2Effs cfg ("# " ++ name ++ ": " ++ pyFmt v))
  else if name = "ev" ∨ name = "alim" then do
    let n ← pyInt vtok
    let v := PyVal.f n 100
    PyRes.ok (setAttrS s (if name = "ev" then "EV" else "ALIM") v,
      print2Effs cfg ("# " ++ name ++ ": " ++ pyFmt v))
  else if name = "lambda" ∨ name = "EasyLambda" then do
    let n ← pyInt vtok
    let v := PyVal.f n 10
    PyRes.ok (setAttrS s (if name = "lambda" then "LAMBDA" else "EasyLambda") v,
      print2Effs cfg ("# " ++ name ++ ": " ++ pyFmt v))
  else if name = "pstab" then do
    let n ← pyInt vtok
    let v := if strHasSub cfg.nm "Bare" ∨ strHasSub cfg.nm "Newt" then PyVal.f n 10
             else PyVal.i n
    PyRes.ok (setAttrS s "PSTAB" v, print2Effs cfg ("# pstab: " ++ pyFmt v))
  else if boolOptNames.contains name then
    let v := PyVal.b (vtok = "true")
    PyRes.ok (setAttrS s (boolOptAttr name) v,
      print2Effs cfg ("# " ++ name ++ ": " ++ pyFmt v))
  else if name = "enginepath" then
    PyRes.ok (setAttrS s "ENGINE" (.s vtok), print2Effs cfg ("# enginepath: " ++ vtok))
  else if name = "bookpath" then
    PyRes.ok (setAttrS s "BOOKPATH" (.s vtok), print2Effs cfg ("# bookpath: " ++ vtok))
  else PyRes.ok (s, [])

/-- The `position startpos moves ...` body: fresh board, then push the
tokens after the third one; an illegal move raises. -/
def posStartposHandler (lib : ChessLib) (s : EngState) (toks : List String) :
    PyRes (EngState × List Effect) := do
  let bf ← pushAll lib (startBoard lib) (toks.drop 3)
  PyRes.ok ({ s with d := some bf }, [])

/-- The `position fen ...` body, source lines 313-334, including the
Shredder-FEN patch and the game-continuation merge: when the supplied
FEN equals the current board's FEN, the trailing moves are pushed onto
the pre-existing board (keeping its history) instead of the freshly
parsed one. -/
def posFenHandler (cfg : Config) (lib : ChessLib) (s : EngState) (l : String) :
    PyRes (EngState × List Effect) := do
  let toks0 := pySplit l
  let t6 ← pyIndex toks0 6
  let toks := if t6 = "moves" then toks0.take 6 ++ ["0", "1"] ++ toks0.drop 6 else toks0
  let ff := joinSp ((toks.drop 2).take 6)
  let mm := toks.drop 9
  match s.d with
  | some old =>
      let (s1, effs) := fromfenStep cfg lib s ff
      if old.pos = ff then do
        let bf ← pushAll lib old mm
        PyRes.ok ({ s1 with d := some bf }, effs)
      else
        match s1.d with
        | some dcur => do
            let bf ← pushAll lib dcur mm
            PyRes.ok ({ s1 with d := some bf }, effs)
        | none => PyRes.exc .attributeError
  | none =>
      let (s1, effs) := fromfenStep cfg lib s ff
      match s1.d with
      | some dcur => do
          let bf ← pushAll lib dcur mm
          PyRes.ok ({ s1 with d := some bf }, effs)
      | none =>
          if mm = [] then PyRes.ok (s1, effs) else PyRes.exc .attributeError

/-- The `setboard <FEN>` body: `fromfen(l.split(' ', 1)[1])`. -/
def setboardHandler (cfg : Config) (lib : ChessLib) (s : EngState) (l : String) :
    PyRes (EngState × List Effect) := do
  let fen ← pyIndex (pySplitOnce l) 1
  PyRes.ok (fromfenStep cfg lib s fen)

/-- The `go` body, source lines 443-450: ensure a board exists; only for
the Newt engine read time controls and spawn the background search.  No
output line and no synchronous engine call is produced here. -/
def goHandler (cfg : Config) (lib : ChessLib) (s : EngState) (l : String) :
    PyRes (EngState × List Effect) := do
  let s1 := { s with d := some (s.d.getD (startBoard lib)) }
  if cfg.nm = "Newt" then do
    let s2 ← setNewtTime s1 (pySplit l)
    PyRes.ok (startSearchSt s2 l, [])
  else PyRes.ok (s1, [])

/-- The `?` body: cancel/emit, then log the move that was reported. -/
def questionHandler (cfg : Config) (lib : ChessLib) (s : EngState) :
    PyRes (EngState × List Effect) := do
  let (s1, effs) ← stopSearchAndOutput cfg lib s
  let extra :=
    if cfg.logEnabled then
      [Effect.logW ("move " ++ (match s1.lastResult with
        | some (_, r) => pyListRepr r
        | none => "0000"))]
    else []
  PyRes.ok (s1, effs ++ extra)

def abcChars : List Char := ['a', 'b', 'c', 'd', 'e', 'f', 'g', 'h']
def nnChars : List Char := ['1', '2', '3', '4', '5', '6', '7', '8']

/-- The short-circuiting coordinate-move test
`l[0] in abc and l[2] in abc and l[1] in nn and l[3] in nn`, raising
IndexError exactly where Python would. -/
def fallbackCond (cs : List Char) : PyRes Bool := do
  let c0 ← pyCharAt cs 0
  if abcChars.contains c0 then do
    let c2 ← pyCharAt cs 2
    if abcChars.contains c2 then do
      let c1 ← pyCharAt cs 1
      if nnChars.contains c1 then do
        let c3 ← pyCharAt cs 3
        PyRes.ok (nnChars.contains c3)
      else PyRes.ok false
    else PyRes.ok false
  else PyRes.ok false

/-- The fallback branch, source lines 462-472: ensure a board, test for
a coordinate-move token, repair the malformed 6-character promotion
encoding, push the user move, rewrite the PGN, then synchronously call
the engine and play its reply (when it returns one) via `move()`. -/
def fallbackHandler (cfg : Config) (lib : ChessLib) (eng : Engine) (s0 : EngState)
    (l : String) : PyRes (EngState × List Effect) := do
  let b0 := s0.d.getD (startBoard lib)
  let s := { s0 with d := some b0 }
  let c ← fallbackCond l.toList
  if c then do
    let mv := if l.length = 6 then String.mk (l.toList.take 4) ++ "q" else l
    let b1 ← pushUci lib b0 mv
    let s1 := { s with d := some b1 }
    let tr := eng b1
    if tr.2 = [] then
      PyRes.ok (s1, [Effect.pgnWrite, Effect.engineCall])
    else do
      let (s2, effs2) ← moveStep cfg lib s1 tr.2
      PyRes.ok (s2, [Effect.pgnWrite, Effect.engineCall] ++ effs2)
  else PyRes.ok (s, [])

/-- Result of dispatching one line: continue with a new state, or exit
the process with a code (only `quit` exits). -/
inductive StepRes where
  | cont (s : EngState) (effs : List Effect)
  | exit (code : Nat) (effs : List Effect)
deriving DecidableEq, Repr

/-- Lift a handler result into a dispatch step. -/
def contOf (r : PyRes (EngState × List Effect)) : PyRes StepRes :=
  match r with
  | .ok (s, effs) => .ok (.cont s effs)
  | .exc e => .exc e

/-- Dispatch one non-empty input line (the body of the main loop after
the input-logging prologue). -/
def processLine (cfg : Config) (lib : ChessLib) (eng : Engine) (s : EngState)
    (l : String) : PyRes StepRes :=
  match classify l with
  | .bXboard =>
      .ok (.cont { s with isUci := false }
        (print2Effs cfg ("feature myname=\"" ++ cfg.nm ++ "\" setboard=1 done=1")))
  | .bQuit => .ok (.exit 0 [])
  | .bNew => .ok (.cont (newgameSt lib s) [])
  | .bUci =>
      .ok (.cont { s with isUci := true } (print2Seq cfg (uciOutput cfg.nm)))
  | .bUcinewgame => .ok (.cont (newgameSt lib s) [])
  | .bPosStartpos => contOf (posStartposHandler lib s (pySplit l))
  | .bPosFen => contOf (posFenHandler cfg lib s l)
  | .bSetopt name => contOf (setoptHandler cfg s name l)
  | .bIsready =>
      let s1 := if s.d = none then newgameSt lib s else s
      .ok (.cont s1 (print2Effs cfg "readyok"))
  | .bSetboard => contOf (setboardHandler cfg lib s l)
  | .bGo => contOf (goHandler cfg lib s l)
  | .bStop => contOf (stopSearchAndOutput cfg lib s)
  | .bForce => contOf (stopSearchAndOutput cfg lib s)
  | .bQuestion => contOf (questionHandler cfg lib s)
  | .bFallback => contOf (fallbackHandler cfg lib eng s l)

/-- One main-loop round on an input line: empty lines are skipped, other
lines are logged (when enabled) and dispatched. -/
def mainStep (cfg : Config) (lib : ChessLib) (eng : Engine) (s : EngState)
    (l : String) : PyRes StepRes :=
  if l = "" then .ok (.cont s [])
  else
    let pre := if cfg.logEnabled then [Effect.logW l] else []
    match processLine cfg lib eng s l with
    | .ok (.cont s2 effs) => .ok (.cont s2 (pre ++ effs))
    | .ok (.exit c effs) => .ok (.exit c (pre ++ effs))
    | .exc e => .exc e

/-- Outcome of feeding a whole input sequence to the main loop. -/
inductive RunOut where
  | ok (s : EngState) (effs : List Effect)
  | exited (code : Nat) (effs : List Effect)
  | crashed (e : PyErr) (effs : List Effect)
deriving DecidableEq, Repr

/-- Feed input lines one at a time, accumulating effects in order. -/
def runLines (cfg : Config) (lib : ChessLib) (eng : Engine) :
    EngState → List String → RunOut
  | s, [] => .ok s []
  | s, l :: ls =>
      match mainStep cfg lib eng s l with
      | .ok (.cont s2 effs) =>
          match runLines cfg lib eng s2 ls with
          | .ok sf effs2 => .ok sf (effs ++ effs2)
          | .exited c effs2 => .exited c (effs ++ effs2)
          | .crashed e effs2 => .crashed e (effs ++ effs2)
      | .ok (.exit c effs) => .exited c effs
      | .exc e => .crashed e []

/-- Effect trace of a whole run. -/
def runEffects : RunOut → List Effect
  | .ok _ effs => effs
  | .exited _ effs => effs
  | .crashed _ effs => effs

/-- Stdout lines of a whole run. -/
def runOutLines (r : RunOut) : List String := outsOf (runEffects r)

/-- Final board of a completed run. -/
def runBoard : RunOut → Option Board
  | .ok s _ => s.d
  | _ => none

/-- Stdout lines of a single dispatch step (none when it crashed). -/
def stepOutLines (r : PyRes StepRes) : List String :=
  match r with
  | .ok (.cont _ effs) => outsOf effs
  | .ok (.exit _ effs) => outsOf effs
  | .exc _ => []

/-- Search-thread slot after a single dispatch step, when it continued. -/
def stepThread (r : PyRes StepRes) : Option (Option SearchTask) :=
  match r with
  | .ok (.cont s _) => some s.searchThread
  | _ => none

/-- Calling the cancellation path twice in a row, threading the state. -/
def stopTwice (cfg : Config) (lib : ChessLib) (s : EngState) :
    PyRes (EngState × List Effect) := do
  let (s1, _) ← stopSearchAndOutput cfg lib s
  stopSearchAndOutput cfg lib s1

/-- Python falsiness of `last_result and last_result[1]`: no stored
result, or a stored result with an empty move sequence. -/
def lastResultFalsy (s : EngState) : Bool :=
  match s.lastResult with
  | none => true
  | some (_, r) => r.isEmpty

/-- The accepted-move game evolution of the fallback branch: each user
move is pushed and the engine's reply (when the engine returns one) is
pushed after it.  Returns the final board and the flattened
user/engine-interleaved move list. -/
def userGame (lib : ChessLib) (eng : Engine) : Board → List String →
    Option (Board × List String)
  | b, [] => some (b, [])
  | b, m :: ms =>
      match lib.applyMove b.pos m with
      | none => none
      | some p1 =>
          let b1 : Board := { pos := p1, stack := b.stack ++ [m] }
          match (eng b1).2 with
          | [] => (userGame lib eng b1 ms).map (fun r => (r.1, m :: r.2))
          | r0 :: _ =>
              match lib.applyMove b1.pos r0 with
              | none => none
              | some p2 =>
                  (userGame lib eng { pos := p2, stack := b1.stack ++ [r0] } ms).map
                    (fun r => (r.1, m :: r0 :: r.2))

/-!  ## Environment flags (source lines 85-91)

The only environment variables the source reads are `PTC_LOG` and
`PTC_LOG_FILE`; both configure the raw-protocol log.  No environment
variable gates the PGN file. -/

/-- ASCII lowercasing of one character (Python `str.lower` on the flag). -/
def pyLowerChar (c : Char) : Char :=
  if 'A' ≤ c ∧ c ≤ 'Z' then Char.ofNat (c.toNat + 32) else c

/-- ASCII lowercasing of a string. -/
def pyLower (s : String) : String := String.mk (s.toList.map pyLowerChar)

/-- `LOG_ENABLE`: truthiness of the `PTC_LOG` environment variable. -/
def LOG_ENABLE (getenv : String → Option String) : Bool :=
  ["1", "true", "yes", "on"].contains (pyLower ((getenv "PTC_LOG").getD "0"))

/-- An environment with every variable unset. -/
def emptyEnv : String → Option String := fun _ => none

/-!  ## Concrete instances used for witnesses and counterexamples

`toyLib` instantiates the external chess library on the handful of
positions the concrete inputs reach; its tables agree with real chess
(1.e4 is legal from the start position, 1...e7e5 is a legal reply, and
`e2e4` is illegal again immediately after 1.e4 since e2 is empty). -/

def stdStartFEN : String := "rnbqkbnr/pppppppp/8/8/8/8/PPPPPPPP/RNBQKBNR w KQkq - 0 1"
def fenE4 : String := "rnbqkbnr/pppppppp/8/8/4P3/8/PPPPPPPP/RNBQKBNR b KQkq e3 0 1"
def fenE4E5 : String := "rnbqkbnr/pppp1ppp/8/4p3/4P3/8/PPPPPPPP/RNBQKBNR w KQkq e6 0 2"

def toyLib : ChessLib :=
  { startFEN := stdStartFEN
    parseFEN := fun f => if f = stdStartFEN ∨ f = fenE4 ∨ f = fenE4E5 then some f else none
    applyMove := fun pos m =>
      if pos = stdStartFEN ∧ m = "e2e4" then some fenE4
      else if pos = fenE4 ∧ m = "e7e5" then some fenE4E5
      else none }

/-- Default configuration (the `pyturochamp` engine, logging off). -/
def cfgPtc : Config := { nm := "PyTuroChamp", logEnabled := false }

/-- Configuration selecting the Newt engine. -/
def cfgNewt : Config := { nm := "Newt", logEnabled := false }

/-- Configuration whose log flag comes from an all-unset environment. -/
def cfgNoEnv : Config := { nm := "PyTuroChamp", logEnabled := LOG_ENABLE emptyEnv }

/-- An engine that never returns a move. -/
def engNone : Engine := fun _ => ("", [])

/-- An engine that answers 1.e4 with 1...e7e5 and otherwise passes. -/
def engE5 : Engine := fun b => if b.pos = fenE4 then ("t", ["e7e5"]) else ("", [])

/-- A per-depth search result function always choosing 1...e7e5. -/
def gE4 : Nat → String × List String := fun _ => ("", ["e2e4"])

/-- A stop-flag schedule that is never set. -/
def neverStop : Nat → Bool := fun _ => false

/-- A state with a start-position board, as after `position startpos`. -/
def readyState : EngState := { initState with d := some (startBoard toyLib) }

/-!  ## General helper lemmas -/

@[simp]
theorem PyRes.bind_ok (a : α) (f : α → PyRes β) : (PyRes.ok a >>= f) = f a := rfl

@[simp]
theorem PyRes.bind_exc (e : PyErr) (f : α → PyRes β) : (PyRes.exc e >>= f) = PyRes.exc e := rfl

@[simp]
theorem PyRes.pure_eq (a : α) : (pure a : PyRes α) = PyRes.ok a := rfl

/-- After a successful `pushAll`, the move stack is the old stack with
the pushed moves appended: history is preserved, not replaced. -/
theorem pushAll_stack (lib : ChessLib) :
    ∀ (mm : List String) (b bf : Board), pushAll lib b mm = PyRes.ok bf →
      bf.stack = b.stack ++ mm := by
  intro mm
  induction mm with
  | nil =>
      intro b bf h
      cases h
      simp
  | cons m ms ih =>
      intro b bf h
      rw [pushAll] at h
      cases happ : lib.applyMove b.pos m with
      | none => rw [pushUci, happ] at h; cases h
      | some p2 =>
          rw [pushUci, happ, PyRes.bind_ok] at h
          have := ih _ _ h
          simp [this]

/-- `set_newt_time` leaves the state untouched (and cannot raise) when
the line carries no time-control tokens. -/
theorem setNewtTime_noop (s : EngState) :
    ∀ (toks : List String), (∀ t ∈ toks, newtTimeKeys.contains t = false) →
      setNewtTime s toks = PyRes.ok s := by
  intro toks
  induction toks with
  | nil => intro h; rfl
  | cons t rest ih =>
      intro h
      cases rest with
      | nil =>
          have ht := h t (by simp)
          simp only [setNewtTime, ht, Bool.false_eq_true, if_false]
      | cons nxt rest2 =>
          have ht := h t (by simp)
          rw [setNewtTime, ht]
          simp only [Bool.false_eq_true, if_false]
          exact ih (fun x hx => h x (List.mem_cons_of_mem _ hx))

/-!  ## Claim C1: the "fast path" of `go depth N` -/

/-- Claim C1 (refuted as stated): with the Newt engine selected, a board
present and the line `go depth 3` (a depth limit, no time-control
tokens), the dispatcher emits nothing at all — in particular no best
move — and it does spawn a background search task, contradicting the
claimed synchronous fast path with no thread. -/
theorem go_fastpath_counterexample :
    processLine cfgNewt toyLib engNone readyState "go depth 3" =
      PyRes.ok (StepRes.cont
        { readyState with searchThread := some { depthTarget := some 3 } } []) ∧
    ¬ (stepThread (processLine cfgNewt toyLib engNone readyState "go depth 3") = some none) := by
  decide

/-- Claim C1 (amended): a `go` line carrying a parsable depth token and
no time-control tokens produces no output and no synchronous engine
call (the step result carries an empty effect trace and does not depend
on the engine); when the Newt engine is selected it spawns one
background search task at the parsed depth after clearing the stop flag
and LastResult, and with any other engine the only state change is lazy
board creation. -/
theorem go_depth_dispatcher_behavior (cfg : Config) (lib : ChessLib) (eng : Engine)
    (s : EngState) (l : String) (n : Int)
    (hcl : classify l = Branch.bGo)
    (hdep : goDepthOf (pySplit l) = some n)
    (htc : ∀ t ∈ pySplit l, newtTimeKeys.contains t = false) :
    processLine cfg lib eng s l =
      PyRes.ok (StepRes.cont
        (if cfg.nm = "Newt" then
          { s with d := some (s.d.getD (startBoard lib)), stopFlag := false,
                   lastResult := none,
                   searchThread := some { depthTarget := some n } }
         else { s with d := some (s.d.getD (startBoard lib)) }) []) := by
  simp only [processLine, hcl, goHandler]
  by_cases hnm : cfg.nm = "Newt"
  · rw [if_pos hnm, if_pos hnm, setNewtTime_noop _ _ htc, PyRes.bind_ok]
    simp only [contOf, startSearchSt, hdep]
  · rw [if_neg hnm, if_neg hnm]
    rfl

/-- Witness for `go_depth_dispatcher_behavior` at the Newt configuration
and the line `go depth 2`. -/
theorem go_depth_dispatcher_behavior_witness :
    processLine cfgNewt toyLib engNone initState "go depth 2" =
      PyRes.ok (StepRes.cont
        (if cfgNewt.nm = "Newt" then
          { initState with d := some (initState.d.getD (startBoard toyLib)), stopFlag := false,
                           lastResult := none,
                           searchThread := some { depthTarget := some 2 } }
         else { initState with d := some (initState.d.getD (startBoard toyLib)) }) []) :=
  go_depth_dispatcher_behavior cfgNewt toyLib engNone initState "go depth 2" 2
    (by decide) (by decide) (by decide)

/-!  ## Claim C2: what the iterative-deepening loop emits on completion -/

/-- When the stop flag is never observed set, the loop runs every
iteration, folding the per-depth results into `last_result`, and prints
nothing. -/
theorem thinkLoopAux_no_stop (g : Nat → String × List String) (stopObs : Nat → Bool)
    (hstop : ∀ k, stopObs k = false) :
    ∀ (L : List Nat) (k : Nat) (lr : Option (String × List String)),
      thinkLoopAux g stopObs L k lr =
        (L.foldl (fun lr dd => let tr := g dd; if tr.2 = [] then lr else some tr) lr, []) := by
  intro L
  induction L with
  | nil => intro k lr; rfl
  | cons dd rest ih =>
      intro k lr
      rw [thinkLoopAux, hstop k, hstop (k + 1)]
      simp only [Bool.false_eq_true, if_false]
      exact ih (k + 2) _

/-- Claim C2 (refuted as stated): a background search that runs both of
its two iterations with the stop flag never observed ends with a
non-empty LastResult yet prints nothing: it emits neither the best-move
line for LastResult nor the null-move sentinel. -/
theorem think_loop_emits_counterexample :
    thinkLoopRun gE4 neverStop (some 2) = (some ("", ["e2e4"]), []) ∧
    ¬ ((thinkLoopRun gE4 neverStop (some 2)).2.contains "bestmove e2e4" = true ∨
       (thinkLoopRun gE4 neverStop (some 2)).2.contains "bestmove 0000" = true) := by
  decide

/-- Claim C2 (amended): a background iterative-deepening run that
completes all its iterations (depth 1 up to the explicit target, or 64
when none) without ever observing the stop flag returns silently — the
loop itself emits no output line — leaving LastResult holding the
result of the deepest iteration that produced one (empty if none); the
answer is emitted only later, by the cancellation path. -/
theorem think_loop_silent_completion (g : Nat → String × List String)
    (stopObs : Nat → Bool) (target : Option Int)
    (hstop : ∀ k, stopObs k = false) :
    thinkLoopRun g stopObs target = (lastIterResult g (target.getD 64), []) := by
  unfold thinkLoopRun lastIterResult
  exact thinkLoopAux_no_stop g stopObs hstop _ 0 none

/-- Witness for `think_loop_silent_completion`: a three-iteration run
with a never-set stop flag; the silent result is the depth-3 one. -/
theorem think_loop_silent_completion_witness :
    thinkLoopRun gE4 neverStop (some 3) = (lastIterResult gE4 ((some (3 : Int)).getD 64), []) ∧
    lastIterResult gE4 ((some (3 : Int)).getD 64) = some ("", ["e2e4"]) :=
  ⟨think_loop_silent_completion gE4 neverStop (some 3) (fun _ => rfl), by decide⟩

/-!  ## Claim C3: the uci/isready/position/go end-to-end scenario -/

/-- Claim C3 (refuted as stated): feeding `uci`, `isready`,
`position startpos moves e2e4`, `go depth 1` in order produces no
`bestmove` line at all (the claimed count of exactly one fails): under
the default engine the `go` branch does not search, and under Newt it
only spawns a silent background task. -/
theorem uci_scenario_counterexample :
    ¬ ((runOutLines (runLines cfgPtc toyLib engE5 initState
          ["uci", "isready", "position startpos moves e2e4", "go depth 1"])).countP
        (fun o => strHasSub o "bestmove") = 1) := by
  decide

/-- Claim C3 (amended): the four-line scenario produces, in order, the
`id name ...` block ending in `uciok`, then `readyok`, and nothing
else — no `bestmove` line.  This holds both for the default engine
(where `go` starts no search at all) and for Newt (where `go` spawns a
background task); the spawned task itself also prints nothing, shown
here for the task the Newt run spawns (depth target 1, engine replying
1...e7e5, stop flag never set). -/
theorem uci_scenario_outputs :
    runOutLines (runLines cfgPtc toyLib engE5 initState
        ["uci", "isready", "position startpos moves e2e4", "go depth 1"]) =
      uciOutput "PyTuroChamp" ++ ["readyok"] ∧
    runOutLines (runLines cfgNewt toyLib engE5 initState
        ["uci", "isready", "position startpos moves e2e4", "go depth 1"]) =
      uciOutput "Newt" ++ ["readyok"] ∧
    (thinkLoopRun (fun _ => engE5 { pos := fenE4, stack := ["e2e4"] }) neverStop (some 1)).2 = [] := by
  decide

/-!  ## Claim C4: which input lines can crash the process -/

/-- Claim C4 (refuted as stated): the input line
`position startpos moves e2e5` (a malformed move list: e2e5 is not a
legal move from the start position) raises an uncaught exception from
`push_uci`, crashing the process, although the line is not `quit`. -/
theorem no_crash_counterexample :
    processLine cfgPtc toyLib engNone initState "position startpos moves e2e5" =
      PyRes.exc PyErr.illegalMove ∧
    "position startpos moves e2e5" ≠ "quit" := by
  decide

/-- The cancellation path on a state with an empty LastResult: sets the
stop flag, drops the thread handle, prints the null-move sentinel. -/
theorem stopSearchAndOutput_empty (cfg : Config) (lib : ChessLib) (s : EngState)
    (hlr : s.lastResult = none) :
    stopSearchAndOutput cfg lib s =
      PyRes.ok ({ s with stopFlag := true, searchThread := none },
        print2Effs cfg (sentinelLine s.isUci)) := by
  obtain ⟨d0, u0, st0, f0, lr0, a0⟩ := s
  have h2 : lr0 = none := hlr
  subst h2
  rfl

/-- Claim C4 (amended): the argument-free command lines — `xboard`,
`new`, `uci`, `ucinewgame`, `isready`, and (when LastResult is empty)
`stop`, `force`, `?` — never raise, and `quit` exits the process with
code 0.  Lines carrying malformed arguments, however, can crash the
process (see the counterexample). -/
theorem exact_commands_no_crash (cfg : Config) (lib : ChessLib) (eng : Engine)
    (s : EngState) (hlr : s.lastResult = none) :
    processLine cfg lib eng s "quit" = PyRes.ok (StepRes.exit 0 []) ∧
    ∀ l ∈ (["xboard", "new", "uci", "ucinewgame", "isready", "stop", "force", "?"] : List String),
      ∃ s2 effs, processLine cfg lib eng s l = PyRes.ok (StepRes.cont s2 effs) := by
  obtain ⟨d0, u0, st0, f0, lr0, a0⟩ := s
  have h2 : lr0 = none := hlr
  subst h2
  refine ⟨rfl, ?_⟩
  intro l hl
  simp only [List.mem_cons, List.not_mem_nil, or_false] at hl
  rcases hl with rfl | rfl | rfl | rfl | rfl | rfl | rfl | rfl
  all_goals exact ⟨_, _, rfl⟩

/-- Witness for `exact_commands_no_crash`: the `quit` part at a concrete
state with no pending result. -/
theorem exact_commands_no_crash_witness :
    processLine cfgPtc toyLib engNone readyState "quit" = PyRes.ok (StepRes.exit 0 []) :=
  (exact_commands_no_crash cfgPtc toyLib engNone readyState rfl).1

/-!  ## Claim C5: idempotence of the cancellation path -/

/-- Claim C5 (refuted as stated): with no search running but LastResult
holding 1.e4, the first cancellation call plays the move; the second
call re-pushes the same move onto the changed board and raises an
uncaught exception — the path is neither total nor idempotent in the
non-empty LastResult case. -/
theorem stop_idempotent_counterexample :
    ({ readyState with lastResult := some ("", ["e2e4"]) } : EngState).searchThread = none ∧
    stopTwice cfgPtc toyLib { readyState with lastResult := some ("", ["e2e4"]) } =
      PyRes.exc PyErr.illegalMove := by
  decide

/-- Claim C5 (amended): with no search running and an empty LastResult,
the cancellation path is total and idempotent: each of two consecutive
invocations returns normally, emits exactly one stdout line — the
null-move sentinel — and the only state change is setting the stop
flag. -/
theorem stop_empty_idempotent (cfg : Config) (lib : ChessLib) (s : EngState)
    (hth : s.searchThread = none) (hlr : s.lastResult = none) :
    stopSearchAndOutput cfg lib s =
      PyRes.ok ({ s with stopFlag := true }, print2Effs cfg (sentinelLine s.isUci)) ∧
    stopSearchAndOutput cfg lib { s with stopFlag := true } =
      PyRes.ok ({ s with stopFlag := true }, print2Effs cfg (sentinelLine s.isUci)) ∧
    outsOf (print2Effs cfg (sentinelLine s.isUci)) = [sentinelLine s.isUci] := by
  obtain ⟨d0, u0, st0, f0, lr0, a0⟩ := s
  have h1 : st0 = none := hth
  have h2 : lr0 = none := hlr
  subst h1
  subst h2
  refine ⟨rfl, rfl, ?_⟩
  cases hb : cfg.logEnabled <;> simp [outsOf, print2Effs, hb]

/-- Witness for `stop_empty_idempotent` at a concrete idle state. -/
theorem stop_empty_idempotent_witness :
    stopSearchAndOutput cfgPtc toyLib readyState =
      PyRes.ok ({ readyState with stopFlag := true },
        print2Effs cfgPtc (sentinelLine readyState.isUci)) ∧
    stopSearchAndOutput cfgPtc toyLib { readyState with stopFlag := true } =
      PyRes.ok ({ readyState with stopFlag := true },
        print2Effs cfgPtc (sentinelLine readyState.isUci)) ∧
    outsOf (print2Effs cfgPtc (sentinelLine readyState.isUci)) =
      [sentinelLine readyState.isUci] :=
  stop_empty_idempotent cfgPtc toyLib readyState rfl rfl

/-!  ## Claim C6: the position-continuation merge rule -/

/-- Claim C6 (confirmed): when `position fen <F> moves m1 .. mk` supplies
exactly the current board's FEN, the dispatcher extends the pre-existing
board with the trailing moves — the final board is `pushAll` applied to
the old board, and its move stack is the old history with the new moves
appended — instead of the freshly parsed (history-free) board. -/
theorem position_fen_continuation (cfg : Config) (lib : ChessLib) (eng : Engine)
    (s : EngState) (b : Board) (flds mm : List String) (l : String) (pf : String) (bf : Board)
    (hcl : classify l = Branch.bPosFen)
    (htoks : pySplit l = ["position", "fen"] ++ flds ++ ["moves"] ++ mm)
    (hlen : flds.length = 6)
    (hf4 : flds.get? 4 ≠ some "moves")
    (hd : s.d = some b)
    (hfen : b.pos = joinSp flds)
    (hparse : lib.parseFEN (joinSp flds) = some pf)
    (hpush : pushAll lib b mm = PyRes.ok bf) :
    processLine cfg lib eng s l = PyRes.ok (StepRes.cont { s with d := some bf } []) ∧
    bf.stack = b.stack ++ mm := by
  refine ⟨?_, pushAll_stack lib mm b bf hpush⟩
  rcases flds with _ | ⟨f0, flds⟩
  · exact absurd hlen (by simp)
  rcases flds with _ | ⟨f1, flds⟩
  · exact absurd hlen (by simp)
  rcases flds with _ | ⟨f2, flds⟩
  · exact absurd hlen (by simp)
  rcases flds with _ | ⟨f3, flds⟩
  · exact absurd hlen (by simp)
  rcases flds with _ | ⟨f4, flds⟩
  · exact absurd hlen (by simp)
  rcases flds with _ | ⟨f5, flds⟩
  · exact absurd hlen (by simp)
  rcases flds with _ | ⟨f6, rest⟩
  · have hf4n : f4 ≠ "moves" := by simpa using hf4
    have h6 : pyIndex (["position", "fen"] ++ [f0, f1, f2, f3, f4, f5] ++ ["moves"] ++ mm) 6 =
        PyRes.ok f4 := rfl
    have hdrop2 :
        (((["position", "fen"] ++ [f0, f1, f2, f3, f4, f5] ++ ["moves"] ++ mm).drop 2).take 6 :
          List String) = [f0, f1, f2, f3, f4, f5] := rfl
    have hdrop9 : ((["position", "fen"] ++ [f0, f1, f2, f3, f4, f5] ++ ["moves"] ++ mm).drop 9 :
        List String) = mm := rfl
    simp only [processLine, hcl, posFenHandler, htoks, h6, PyRes.bind_ok]
    rw [if_neg hf4n]
    simp only [hdrop2, hdrop9, hd, fromfenStep, hparse]
    rw [if_pos hfen, hpush, PyRes.bind_ok]
    rfl
  · simp only [List.length_cons] at hlen
    omega

/-- Witness for `position_fen_continuation`: the current board is the
position after 1.e4 with history `["e2e4"]`; re-supplying its FEN with
`moves e7e5` extends that history to `["e2e4", "e7e5"]`. -/
theorem position_fen_continuation_witness :
    processLine cfgPtc toyLib engNone { initState with d := some { pos := fenE4, stack := ["e2e4"] } }
        "position fen rnbqkbnr/pppppppp/8/8/4P3/8/PPPPPPPP/RNBQKBNR b KQkq e3 0 1 moves e7e5" =
      PyRes.ok (StepRes.cont
        { initState with d := some { pos := fenE4E5, stack := ["e2e4", "e7e5"] } } []) ∧
    (({ pos := fenE4E5, stack := ["e2e4", "e7e5"] } : Board)).stack =
      ({ pos := fenE4, stack := ["e2e4"] } : Board).stack ++ ["e7e5"] :=
  position_fen_continuation cfgPtc toyLib engNone
    { initState with d := some { pos := fenE4, stack := ["e2e4"] } }
    { pos := fenE4, stack := ["e2e4"] }
    ["rnbqkbnr/pppppppp/8/8/4P3/8/PPPPPPPP/RNBQKBNR", "b", "KQkq", "e3", "0", "1"]
    ["e7e5"]
    "position fen rnbqkbnr/pppppppp/8/8/4P3/8/PPPPPPPP/RNBQKBNR b KQkq e3 0 1 moves e7e5"
    fenE4 { pos := fenE4E5, stack := ["e2e4", "e7e5"] }
    (by decide) (by decide) (by decide) (by decide) (by decide) (by decide) (by decide) (by decide)

/-!  ## Claim C8: malformed FEN via `setboard` -/

/-- Claim C8 (refuted as stated): a malformed FEN supplied via
`setboard` is caught and leaves the board unchanged, but the error
report is the bare line `Bad FEN` — no emitted line is a `#` comment
line, contradicting the "reported via a comment line" part. -/
theorem bad_fen_comment_counterexample :
    processLine cfgPtc toyLib engNone readyState "setboard banana" =
      PyRes.ok (StepRes.cont readyState [Effect.out "Bad FEN"]) ∧
    ¬ ((outsOf [Effect.out "Bad FEN"]).any
        (fun o => "#".toList.isPrefixOf o.toList) = true) := by
  decide

/-- Claim C8 (amended): a malformed FEN supplied via `setboard` is
caught (the step returns normally), the dispatcher state — in
particular the board — is left completely unchanged, and the error is
reported by emitting exactly the plain line `Bad FEN` (which is not a
`#` comment line). -/
theorem bad_fen_caught_unchanged (cfg : Config) (lib : ChessLib) (eng : Engine)
    (s : EngState) (l fen : String)
    (hcl : classify l = Branch.bSetboard)
    (hsp : (pySplitOnce l).get? 1 = some fen)
    (hbad : lib.parseFEN fen = none) :
    processLine cfg lib eng s l = PyRes.ok (StepRes.cont s (print2Effs cfg "Bad FEN")) ∧
    outsOf (print2Effs cfg "Bad FEN") = ["Bad FEN"] := by
  constructor
  · simp only [processLine, hcl, setboardHandler, pyIndex, hsp, PyRes.bind_ok,
      fromfenStep, hbad]
    rfl
  · cases hb : cfg.logEnabled <;> simp [outsOf, print2Effs, hb]

/-- Witness for `bad_fen_caught_unchanged` on the concrete line
`setboard banana` with a board present. -/
theorem bad_fen_caught_unchanged_witness :
    processLine cfgPtc toyLib engNone readyState "setboard banana" =
      PyRes.ok (StepRes.cont readyState (print2Effs cfgPtc "Bad FEN")) ∧
    outsOf (print2Effs cfgPtc "Bad FEN") = ["Bad FEN"] :=
  bad_fen_caught_unchanged cfgPtc toyLib engNone readyState "setboard banana" "banana"
    (by decide) (by decide) (by decide)

/-!  ## Claim C9: is the PGN file gated by an environment flag? -/

/-- Claim C9 (refuted as stated): with every environment variable unset
(so the log-enable flag — the only flag the source reads — is off), an
accepted user move still triggers a PGN file write: no environment flag
gates PGN persistence. -/
theorem pgn_env_flag_counterexample :
    LOG_ENABLE emptyEnv = false ∧
    Effect.pgnWrite ∈ runEffects (runLines cfgNoEnv toyLib engNone initState ["e2e4"]) := by
  decide

/-- Claim C9 (amended): every accepted user or engine move
unconditionally attempts a PGN file write, for every configuration
(whatever the log-enable flag, the only environment-derived flag, is
set to): the `move()` path always appends a PGN write effect, and the
fallback user-move branch emits one immediately after pushing the user
move, whatever the engine then returns. -/
theorem pgn_write_unconditional (cfg : Config) (lib : ChessLib) (eng : Engine)
    (s : EngState) :
    (∀ r s2 effs, moveStep cfg lib s r = PyRes.ok (s2, effs) → Effect.pgnWrite ∈ effs) ∧
    (∀ l b b1 s2 effs,
        classify l = Branch.bFallback →
        s.d = some b →
        fallbackCond l.toList = PyRes.ok true →
        pushUci lib b (if l.length = 6 then String.mk (l.toList.take 4) ++ "q" else l) =
          PyRes.ok b1 →
        processLine cfg lib eng s l = PyRes.ok (StepRes.cont s2 effs) →
        Effect.pgnWrite ∈ effs) := by
  have hmem : ∀ (c : Config) (x : String),
      Effect.pgnWrite ∈ print2Effs c x ++ [Effect.pgnWrite] :=
    fun c x => List.mem_append_right _ (by simp)
  constructor
  · intro r s2 effs h
    match r with
    | [] => exact absurd h (by simp [moveStep, pyIndex])
    | rm :: rest =>
        have h0 : pyIndex (rm :: rest) 0 = PyRes.ok rm := rfl
        rw [moveStep, h0, PyRes.bind_ok] at h
        cases hd : s.d with
        | none => rw [hd] at h; cases h
        | some b =>
            rw [hd] at h
            cases happ : lib.applyMove b.pos rm with
            | none =>
                simp only [pushUci, happ, PyRes.bind_exc] at h
                cases h
            | some p2 =>
                simp only [pushUci, happ, PyRes.bind_ok] at h
                simp only [PyRes.ok.injEq, Prod.mk.injEq] at h
                obtain ⟨-, h2⟩ := h
                rw [← h2]
                exact hmem cfg _
  · intro l b b1 s2 effs hcl hd hcond hpush h
    simp only [processLine, hcl, fallbackHandler, hd, Option.getD_some, hcond,
      PyRes.bind_ok, if_true] at h
    rw [hpush, PyRes.bind_ok] at h
    cases heng : (eng b1).2 with
    | nil =>
        rw [heng] at h
        rw [if_pos rfl] at h
        simp only [contOf, PyRes.ok.injEq, StepRes.cont.injEq] at h
        obtain ⟨-, h2⟩ := h
        rw [← h2]
        simp
    | cons r0 rs =>
        rw [heng, if_neg (by simp)] at h
        cases hms : moveStep cfg lib { s with d := some b1 } (r0 :: rs) with
        | exc e => rw [hms, PyRes.bind_exc] at h; cases h
        | ok p =>
            rw [hms, PyRes.bind_ok] at h
            simp only [contOf, PyRes.ok.injEq, StepRes.cont.injEq] at h
            obtain ⟨-, h2⟩ := h
            rw [← h2]
            exact List.mem_append_left _ (by simp)

/-- Witness for `pgn_write_unconditional`: the accepted user move
`e2e4` under the all-unset environment produces a PGN write. -/
theorem pgn_write_unconditional_witness :
    Effect.pgnWrite ∈ [Effect.pgnWrite, Effect.engineCall] :=
  (pgn_write_unconditional cfgNoEnv toyLib engNone readyState).2 "e2e4"
    (startBoard toyLib) { pos := fenE4, stack := ["e2e4"] }
    { readyState with d := some { pos := fenE4, stack := ["e2e4"] } }
    [Effect.pgnWrite, Effect.engineCall]
    (by decide) (by decide) (by decide) (by decide) (by decide)

/-!  ## Claim C10: what the cancellation path does in each branch -/

/-- Claim C10 (confirmed): when the cancellation path finds a non-empty
LastResult it plays the stored move — pushing it onto the board,
emitting the protocol move line and rewriting the PGN file, exactly as
an engine move — while the sentinel branch (empty or absent result)
leaves the board untouched and only prints the sentinel; in both
branches the search-thread slot ends up `None`. -/
theorem stop_branch_effects (cfg : Config) (lib : ChessLib) (s : EngState) :
    (∀ b t rm rest p2, s.d = some b → s.lastResult = some (t, rm :: rest) →
        lib.applyMove b.pos rm = some p2 →
        stopSearchAndOutput cfg lib s =
          PyRes.ok ({ s with stopFlag := true, searchThread := none,
                             d := some { pos := p2, stack := b.stack ++ [rm] } },
            print2Effs cfg ((if s.isUci then "bestmove " else "move ") ++ rm) ++
              [Effect.pgnWrite])) ∧
    (lastResultFalsy s = true →
        stopSearchAndOutput cfg lib s =
          PyRes.ok ({ s with stopFlag := true, searchThread := none },
            print2Effs cfg (sentinelLine s.isUci))) := by
  obtain ⟨d0, u0, st0, f0, lr0, a0⟩ := s
  constructor
  · intro b t rm rest p2 hd hlr happ
    have hd2 : d0 = some b := hd
    have hlr2 : lr0 = some (t, rm :: rest) := hlr
    subst hd2
    subst hlr2
    have hstep : stopSearchAndOutput cfg lib
        ⟨some b, u0, st0, f0, some (t, rm :: rest), a0⟩ =
        moveStep cfg lib ⟨some b, u0, none, true, some (t, rm :: rest), a0⟩ (rm :: rest) := rfl
    have h0 : pyIndex (rm :: rest) 0 = PyRes.ok rm := rfl
    rw [hstep, moveStep, h0, PyRes.bind_ok]
    simp only [pushUci, happ, PyRes.bind_ok]
  · intro hfl
    rcases lr0 with _ | ⟨t, _ | ⟨m, r⟩⟩
    · rfl
    · rfl
    · exact absurd hfl (by simp [lastResultFalsy])

/-- Witness for `stop_branch_effects`: LastResult holds 1.e4 on the
start board; cancellation plays it, emits `bestmove e2e4` and a PGN
write, and clears the thread slot. -/
theorem stop_branch_effects_witness :
    stopSearchAndOutput cfgPtc toyLib { readyState with lastResult := some ("", ["e2e4"]) } =
      PyRes.ok ({ readyState with
                    lastResult := some ("", ["e2e4"]),
                    stopFlag := true,
                    d := some { pos := fenE4, stack := ["e2e4"] } },
        [Effect.out "bestmove e2e4", Effect.pgnWrite]) :=
  ((stop_branch_effects cfgPtc toyLib
      { readyState with lastResult := some ("", ["e2e4"]) }).1
    (startBoard toyLib) "" "e2e4" [] fenE4 rfl rfl (by decide)).trans (by decide)

/-!  ## Claim C7: plain move tokens versus `position startpos moves` -/

/-- Claim C7 (refuted as stated): feeding the single legal token `e2e4`
(with an engine that answers 1...e7e5) leaves a board with two moves
played, which differs from the board produced by
`position startpos moves e2e4`: the fallback branch also plays the
engine's reply. -/
theorem plain_moves_equiv_counterexample :
    runBoard (runLines cfgPtc toyLib engE5 initState ["e2e4"]) =
      some { pos := fenE4E5, stack := ["e2e4", "e7e5"] } ∧
    runBoard (runLines cfgPtc toyLib engE5 initState ["position startpos moves e2e4"]) =
      some { pos := fenE4, stack := ["e2e4"] } ∧
    ¬ (runBoard (runLines cfgPtc toyLib engE5 initState ["e2e4"]) =
        runBoard (runLines cfgPtc toyLib engE5 initState ["position startpos moves e2e4"])) := by
  decide

/-- The interleaved game evolution of `userGame` is exactly a
sequential `pushAll` of the interleaved move list. -/
theorem userGame_pushAll (lib : ChessLib) (eng : Engine) :
    ∀ (ms : List String) (b bf : Board) (inter : List String),
      userGame lib eng b ms = some (bf, inter) → pushAll lib b inter = PyRes.ok bf := by
  intro ms
  induction ms with
  | nil =>
      intro b bf inter h
      simp only [userGame, Option.some.injEq, Prod.mk.injEq] at h
      obtain ⟨rfl, rfl⟩ := h
      rfl
  | cons m ms ih =>
      intro b bf inter h
      simp only [userGame] at h
      cases happ : lib.applyMove b.pos m with
      | none => rw [happ] at h; cases h
      | some p1 =>
          simp only [happ] at h
          have hpm : pushUci lib b m = PyRes.ok { pos := p1, stack := b.stack ++ [m] } := by
            simp [pushUci, happ]
          cases heng : (eng { pos := p1, stack := b.stack ++ [m] }).2 with
          | nil =>
              simp only [heng] at h
              cases hug : userGame lib eng { pos := p1, stack := b.stack ++ [m] } ms with
              | none => rw [hug] at h; cases h
              | some pr =>
                  obtain ⟨bfr, restr⟩ := pr
                  rw [hug] at h
                  simp only [Option.map_some', Option.some.injEq, Prod.mk.injEq] at h
                  obtain ⟨rfl, rfl⟩ := h
                  rw [pushAll, hpm, PyRes.bind_ok]
                  exact ih _ _ _ hug
          | cons r0 rs =>
              simp only [heng] at h
              cases happ2 : lib.applyMove p1 r0 with
              | none => rw [happ2] at h; cases h
              | some p2 =>
                  simp only [happ2] at h
                  have hpr : pushUci lib { pos := p1, stack := b.stack ++ [m] } r0 =
                      PyRes.ok { pos := p2, stack := (b.stack ++ [m]) ++ [r0] } := by
                    simp [pushUci, happ2]
                  cases hug : userGame lib eng
                      { pos := p2, stack := (b.stack ++ [m]) ++ [r0] } ms with
                  | none => rw [hug] at h; cases h
                  | some pr =>
                      obtain ⟨bfr, restr⟩ := pr
                      rw [hug] at h
                      simp only [Option.map_some', Option.some.injEq, Prod.mk.injEq] at h
                      obtain ⟨rfl, rfl⟩ := h
                      rw [pushAll, hpm, PyRes.bind_ok, pushAll, hpr, PyRes.bind_ok]
                      exact ih _ _ _ hug

/-- Feeding fallback move tokens one per line drives the state through
exactly the `userGame` evolution: the run succeeds and ends with the
`userGame` final board installed. -/
theorem runLines_fallback_aux (cfg : Config) (lib : ChessLib) (eng : Engine) :
    ∀ (ms : List String) (s : EngState) (b bf : Board) (inter : List String),
      (∀ x ∈ ms, classify x = Branch.bFallback ∧ fallbackCond x.toList = PyRes.ok true ∧
          x.length ≠ 6 ∧ x ≠ "") →
      (s.d.getD (startBoard lib) = b ∧ (ms = [] → s.d = some b)) →
      userGame lib eng b ms = some (bf, inter) →
      ∃ effs, runLines cfg lib eng s ms = RunOut.ok { s with d := some bf } effs := by
  intro ms
  induction ms with
  | nil =>
      intro s b bf inter hx hd hg
      simp only [userGame, Option.some.injEq, Prod.mk.injEq] at hg
      obtain ⟨rfl, rfl⟩ := hg
      obtain ⟨d0, u0, st0, f0, lr0, a0⟩ := s
      have hds : d0 = some b := hd.2 rfl
      subst hds
      exact ⟨[], rfl⟩
  | cons m ms ih =>
      intro s b bf inter hx hd hg
      obtain ⟨hcl, hcond, hlen, hne⟩ := hx m (by simp)
      have hx2 : ∀ x ∈ ms, classify x = Branch.bFallback ∧
          fallbackCond x.toList = PyRes.ok true ∧ x.length ≠ 6 ∧ x ≠ "" :=
        fun x hmem => hx x (List.mem_cons_of_mem _ hmem)
      simp only [userGame] at hg
      cases happ : lib.applyMove b.pos m with
      | none => rw [happ] at hg; cases hg
      | some p1 =>
          simp only [happ] at hg
          cases heng : (eng { pos := p1, stack := b.stack ++ [m] }).2 with
          | nil =>
              simp only [heng] at hg
              cases hug : userGame lib eng { pos := p1, stack := b.stack ++ [m] } ms with
              | none => rw [hug] at hg; cases hg
              | some pr =>
                  obtain ⟨bfr, restr⟩ := pr
                  rw [hug] at hg
                  simp only [Option.map_some', Option.some.injEq, Prod.mk.injEq] at hg
                  obtain ⟨rfl, rfl⟩ := hg
                  have hstep : mainStep cfg lib eng s m =
                      PyRes.ok (StepRes.cont
                        { s with d := some { pos := p1, stack := b.stack ++ [m] } }
                        ((if cfg.logEnabled then [Effect.logW m] else []) ++
                          [Effect.pgnWrite, Effect.engineCall])) := by
                    rw [mainStep, if_neg hne]
                    simp only [processLine, hcl, fallbackHandler, hd.1, hcond,
                      PyRes.bind_ok, if_true]
                    rw [if_neg hlen]
                    simp only [pushUci, happ, PyRes.bind_ok, heng]
                    rfl
                  obtain ⟨effs2, heq⟩ :=
                    ih { s with d := some { pos := p1, stack := b.stack ++ [m] } } _ _ _ hx2
                      ⟨by simp, fun _ => by simp⟩ hug
                  refine ⟨((if cfg.logEnabled then [Effect.logW m] else []) ++
                    [Effect.pgnWrite, Effect.engineCall]) ++ effs2, ?_⟩
                  rw [runLines, hstep]
                  simp [heq]
          | cons r0 rs =>
              simp only [heng] at hg
              cases happ2 : lib.applyMove p1 r0 with
              | none => rw [happ2] at hg; cases hg
              | some p2 =>
                  simp only [happ2] at hg
                  cases hug : userGame lib eng
                      { pos := p2, stack := (b.stack ++ [m]) ++ [r0] } ms with
                  | none => rw [hug] at hg; cases hg
                  | some pr =>
                      obtain ⟨bfr, restr⟩ := pr
                      rw [hug] at hg
                      simp only [Option.map_some', Option.some.injEq, Prod.mk.injEq] at hg
                      obtain ⟨rfl, rfl⟩ := hg
                      have h0 : pyIndex (r0 :: rs) 0 = PyRes.ok r0 := rfl
                      have hstep : mainStep cfg lib eng s m =
                          PyRes.ok (StepRes.cont
                            { s with d := some { pos := p2, stack := (b.stack ++ [m]) ++ [r0] } }
                            ((if cfg.logEnabled then [Effect.logW m] else []) ++
                              ([Effect.pgnWrite, Effect.engineCall] ++
                                (print2Effs cfg
                                  ((if s.isUci then "bestmove " else "move ") ++ r0) ++
                                  [Effect.pgnWrite])))) := by
                        rw [mainStep, if_neg hne]
                        simp only [processLine, hcl, fallbackHandler, hd.1, hcond,
                          PyRes.bind_ok, if_true]
                        rw [if_neg hlen]
                        simp only [pushUci, happ, PyRes.bind_ok, heng, moveStep, h0, happ2]
                        rfl
                      obtain ⟨effs2, heq⟩ :=
                        ih { s with d := some { pos := p2, stack := (b.stack ++ [m]) ++ [r0] } }
                          _ _ _ hx2 ⟨by simp, fun _ => by simp⟩ hug
                      refine ⟨((if cfg.logEnabled then [Effect.logW m] else []) ++
                        ([Effect.pgnWrite, Effect.engineCall] ++
                          (print2Effs cfg ((if s.isUci then "bestmove " else "move ") ++ r0) ++
                            [Effect.pgnWrite]))) ++ effs2, ?_⟩
                      rw [runLines, hstep]
                      simp at heq
                      simp [heq]

/-- Claim C7 (amended): feeding legal coordinate-move tokens one per
line does not reproduce `position startpos moves` with the same list:
each accepted token is followed by the engine's reply, so the final
board is the one after the user moves interleaved with the engine
replies (`userGame`), and it coincides with the board produced by a
`position startpos moves` command listing that interleaved move list. -/
theorem plain_moves_interleaved_equiv (cfg : Config) (lib : ChessLib) (eng : Engine)
    (ms : List String) (bf : Board) (inter : List String) (posLine : String)
    (hms : ms ≠ [])
    (htok : ∀ x ∈ ms, classify x = Branch.bFallback ∧ fallbackCond x.toList = PyRes.ok true ∧
        x.length ≠ 6 ∧ x ≠ "")
    (hgame : userGame lib eng (startBoard lib) ms = some (bf, inter))
    (hcl : classify posLine = Branch.bPosStartpos)
    (hpos : pySplit posLine = ["position", "startpos", "moves"] ++ inter) :
    (∃ effs, runLines cfg lib eng initState ms =
        RunOut.ok { initState with d := some bf } effs) ∧
    (∀ s2 : EngState, processLine cfg lib eng s2 posLine =
        PyRes.ok (StepRes.cont { s2 with d := some bf } [])) := by
  constructor
  · exact runLines_fallback_aux cfg lib eng ms initState (startBoard lib) bf inter htok
      ⟨rfl, fun h => absurd h hms⟩ hgame
  · intro s2
    have hpushAll : pushAll lib (startBoard lib) inter = PyRes.ok bf :=
      userGame_pushAll lib eng ms (startBoard lib) bf inter hgame
    have hdrop : ((["position", "startpos", "moves"] ++ inter).drop 3 : List String) = inter :=
      rfl
    simp only [processLine, hcl, posStartposHandler, hpos, hdrop, hpushAll, PyRes.bind_ok]
    rfl

/-- Witness for `plain_moves_interleaved_equiv`: the single token
`e2e4` with the 1...e7e5-replying engine matches
`position startpos moves e2e4 e7e5`. -/
theorem plain_moves_interleaved_equiv_witness :
    (∃ effs, runLines cfgPtc toyLib engE5 initState ["e2e4"] =
        RunOut.ok { initState with d := some { pos := fenE4E5, stack := ["e2e4", "e7e5"] } }
          effs) ∧
    (∀ s2 : EngState, processLine cfgPtc toyLib engE5 s2 "position startpos moves e2e4 e7e5" =
        PyRes.ok (StepRes.cont
          { s2 with d := some { pos := fenE4E5, stack := ["e2e4", "e7e5"] } } [])) :=
  plain_moves_interleaved_equiv cfgPtc toyLib engE5 ["e2e4"]
    { pos := fenE4E5, stack := ["e2e4", "e7e5"] } ["e2e4", "e7e5"]
    "position startpos moves e2e4 e7e5"
    (by decide) (by decide) (by decide) (by decide) (by decide)
